import Mathlib

/-!
Verification of the PushScript dependency-conflict detection core
(`src/pushscript-v02/dependency.js`) against its natural-language
specification.

The JavaScript source is shallowly embedded: pure computations become Lean
functions, and every external effect (subprocess execution, filesystem
reads, `JSON.parse` of externally produced text, the HTTP fetch of the LLM
provider) is supplied by an explicit environment record.  Thrown JS
exceptions are modelled with `Except String`; `try`/`catch` blocks are
translated to matches on the `Except` value.
-/

set_option autoImplicit false

namespace PushScript

/-! ## String helpers (JS built-ins used by the source) -/

/-- Whether list `l` starts with `p` (char-by-char comparison). -/
def listStartsWith : List Char → List Char → Bool
  | _, [] => true
  | [], _ :: _ => false
  | c :: cs, d :: ds => c == d && listStartsWith cs ds

/-- Whether `needle` occurs contiguously inside `hay`. -/
def listContains : List Char → List Char → Bool
  | [], needle => needle.isEmpty
  | c :: cs, needle => listStartsWith (c :: cs) needle || listContains cs needle

/-- JS `String.prototype.includes` (case-sensitive substring test). -/
def jsIncludes (s sub : String) : Bool :=
  listContains s.toList sub.toList

/-- Case-insensitive substring test (used to state the spec side of C5;
the source itself only uses the case-sensitive `includes`). -/
def jsIncludesCI (s sub : String) : Bool :=
  listContains (s.toList.map Char.toLower) (sub.toList.map Char.toLower)

/-- JS `String.prototype.endsWith`. -/
def jsEndsWith (s suf : String) : Bool :=
  listStartsWith s.toList.reverse suf.toList.reverse

/-- Auxiliary recursion for `jsSplitChar`. -/
def splitCharAux (sep : Char) : List Char → List Char → List String
  | [], cur => [String.mk cur]
  | c :: rest, cur =>
    if c == sep then String.mk cur :: splitCharAux sep rest []
    else splitCharAux sep rest (cur ++ [c])

/-- JS `String.prototype.split` with a single-character separator. -/
def jsSplitChar (sep : Char) (s : String) : List String :=
  splitCharAux sep s.toList []

/-- JS `Array.prototype.join`. -/
def jsJoin (sep : String) : List String → String
  | [] => ""
  | [s] => s
  | s :: t :: rest => s ++ sep ++ jsJoin sep (t :: rest)

/-! ## Conflict records (the output data model) -/

/-- The `type` field of the object returned by `detectDependencyConflicts`. -/
inductive ConflictType where
  | npm_dependency_conflict
  | invalid_dependencies
  | peer_dependency_conflict
  | dependency_warning
  | version_conflict
  | duplicate_packages
deriving DecidableEq

/-- `{ type, problems, file }` as returned by `detectDependencyConflicts`. -/
structure ConflictRecord where
  type : ConflictType
  problems : List String
  file : String
deriving DecidableEq

/-! ## Method 3: version conflicts inside a changed `package.json`
(lines 229-292 of `dependency.js`) -/

/-- One dependency section of a parsed manifest: the (package, specifier)
pairs of a JSON object, in insertion order (`Object.entries` order). -/
abbrev DepList := List (String × String)

/-- A parsed `package.json`, restricted to the fields the code reads.
`none` models an absent (or falsy) section. -/
structure PackageData where
  dependencies : Option DepList
  devDependencies : Option DepList
  peerDependencies : Option DepList
  optionalDependencies : Option DepList
deriving DecidableEq

/-- The character class of `version.replace(/[\^~>=<]/g, '')`. -/
def isRangeChar (c : Char) : Bool :=
  c == '^' || c == '~' || c == '>' || c == '=' || c == '<'

/-- `version.replace(/[\^~>=<]/g, '')`: every occurrence of a range
operator character is removed, wherever it appears in the specifier. -/
def cleanVersion (v : String) : String :=
  String.mk (v.toList.filter (fun c => !isRangeChar c))

/-- The per-package value stored in `versionMap`: `{ type, version }`
entries in push order. -/
abbrev VersionEntries := List (String × String)

/-- The JS `Map` used by Method 3, modelled as an insertion-ordered
association list. -/
abbrev VMap := List (String × VersionEntries)

/-- `Map.prototype.get` (via `has`/`get` in the source). -/
def vmapFind : VMap → String → Option VersionEntries
  | [], _ => none
  | (k, v) :: rest, pkg => if k == pkg then some v else vmapFind rest pkg

/-- `Map.prototype.set`: replace in place when the key exists, else append
(JS maps preserve insertion order). -/
def vmapSet : VMap → String → VersionEntries → VMap
  | [], pkg, v => [(pkg, v)]
  | (k, w) :: rest, pkg, v =>
    if k == pkg then (k, v) :: rest else (k, w) :: vmapSet rest pkg v

/-- The body of the `forEach` inside `addToVersionMap` for one
`(pkg, version)` pair. -/
def addEntry (m : VMap) (ty pkg version : String) : VMap :=
  let cleanV := cleanVersion version
  match vmapFind m pkg with
  | none => vmapSet m pkg [(ty, cleanV)]
  | some existingVersions =>
    if existingVersions.any (fun v => v.2 != cleanV) then
      vmapSet m pkg (existingVersions ++ [(ty, cleanV)])
    else m

/-- `addToVersionMap(deps, type)`: no-op when the section is absent,
otherwise fold `addEntry` over its entries in order. -/
def addToVersionMap (m : VMap) (deps : Option DepList) (ty : String) : VMap :=
  match deps with
  | none => m
  | some ds => ds.foldl (fun acc p => addEntry acc ty p.1 p.2) m

/-- The four `addToVersionMap` calls of Method 3, in source order. -/
def buildVersionMap (pd : PackageData) : VMap :=
  addToVersionMap
    (addToVersionMap
      (addToVersionMap
        (addToVersionMap [] pd.dependencies "dependencies")
        pd.devDependencies "devDependencies")
      pd.peerDependencies "peerDependencies")
    pd.optionalDependencies "optionalDependencies"

/-- The `versionMap.forEach` loop: packages whose entry list has length
above one become problem strings. -/
def versionConflicts (pd : PackageData) : List String :=
  (buildVersionMap pd).filterMap (fun e =>
    if e.2.length > 1 then
      some (e.1 ++ " has multiple versions: " ++
        jsJoin ", " (e.2.map (fun v => v.1 ++ ": " ++ v.2)))
    else none)

/-- Method 3 for one changed `package.json` that parsed successfully: the
`continue` when both `dependencies` and `devDependencies` are falsy, then
the conflict scan. -/
def versionConflictProbe (pd : PackageData) (file : String) : Option ConflictRecord :=
  if pd.dependencies.isNone && pd.devDependencies.isNone then none
  else
    let conflicts := versionConflicts pd
    if conflicts.length > 0 then
      some ⟨ConflictType.version_conflict, conflicts, file⟩
    else none

/-! ## Method 1: the dependency tree reported by the manager's list
command (lines 109-169 of `dependency.js`) -/

/-- One node of the parsed `ls --json` output: its `invalid` flag, `name`,
`version`, own `problems` array and `dependencies` map (insertion order of
`Object.keys`).  An absent field is modelled by `false` / `""` / `[]`. -/
inductive LsNode where
  | mk : Bool → String → String → List String → List (String × LsNode) → LsNode

def LsNode.invalid : LsNode → Bool
  | .mk i _ _ _ _ => i

def LsNode.name : LsNode → String
  | .mk _ n _ _ _ => n

def LsNode.version : LsNode → String
  | .mk _ _ v _ _ => v

def LsNode.problems : LsNode → List String
  | .mk _ _ _ p _ => p

def LsNode.dependencies : LsNode → List (String × LsNode)
  | .mk _ _ _ _ d => d

mutual

/-- `findInvalidDeps(obj)`: collect `name@version` for invalid nodes and
each node's own `problems`, recursing through `dependencies` children. -/
def findInvalidDeps : LsNode → List String
  | .mk invalid name version problems deps =>
    (if invalid then [name ++ "@" ++ version] else []) ++ problems ++
      findInvalidDepsList deps

/-- The `Object.keys(obj.dependencies).forEach` concatenation. -/
def findInvalidDepsList : List (String × LsNode) → List String
  | [] => []
  | (_, child) :: rest => findInvalidDeps child ++ findInvalidDepsList rest

end

/-- Method 1 after a successful `JSON.parse` of the ls output: top-level
`problems` first, then the recursive walk. -/
def treeProbe (lsData : LsNode) (file : String) : Option ConflictRecord :=
  if lsData.problems.length > 0 then
    some ⟨ConflictType.npm_dependency_conflict, lsData.problems, file⟩
  else
    let invalidDeps := findInvalidDeps lsData
    if invalidDeps.length > 0 then
      some ⟨ConflictType.invalid_dependencies, invalidDeps, file⟩
    else none

/-- Occurrence of the node `n` in a tree: the tree itself, or an
occurrence in one of the children of the `dependencies` map. -/
inductive InTree (n : LsNode) : LsNode → Prop where
  | refl : InTree n n
  | child {c : LsNode} {nm : String} (t : LsNode)
      (hmem : (nm, c) ∈ t.dependencies) (h : InTree n c) : InTree n t

/-! ## Method 2: dry-run install warnings (lines 171-227 of `dependency.js`) -/

/-- One element of the `warnings` array of the parsed dry-run output:
either a JSON string, or an object with optional `code` and `message`
fields.  The last component of `obj` carries the value of
`JSON.stringify(w)`, which the code uses as a fallback text. -/
inductive JsWarning where
  | str : String → JsWarning
  | obj : Option String → Option String → String → JsWarning
deriving DecidableEq

/-- The filter predicate of `peerDepsWarnings` (lines 190-200).  Note that
`String.prototype.includes` is case-sensitive; `w.code` of a string value
is `undefined`; and `w.message &&` makes an empty `message` falsy. -/
def warningMatches : JsWarning → Bool
  | .str s => jsIncludes s "peer dep missing" || jsIncludes s "conflict"
  | .obj code msg _ =>
    code == some "ERESOLVE" ||
      (match msg with
       | some m => !m.isEmpty && (jsIncludes m "peer dep missing" || jsIncludes m "conflict")
       | none => false)

/-- The map of line 205: `typeof w === 'string' ? w : w.message ||
JSON.stringify(w)` (an empty `message` is falsy and falls back to the
stringified form). -/
def warningText : JsWarning → String
  | .str s => s
  | .obj _ msg stringified =>
    match msg with
    | some m => if m.isEmpty then stringified else m
    | none => stringified

/-- The parsed dry-run output, restricted to the field the code reads. -/
structure DryRunData where
  warnings : Option (List JsWarning)
deriving DecidableEq

/-- Method 2 when `JSON.parse(checkOutput)` succeeds (lines 187-209). -/
def dryRunJsonProbe (d : DryRunData) (file : String) : Option ConflictRecord :=
  match d.warnings with
  | none => none
  | some ws =>
    if ws.length > 0 then
      let peerDepsWarnings := ws.filter warningMatches
      if peerDepsWarnings.length > 0 then
        some ⟨ConflictType.peer_dependency_conflict, peerDepsWarnings.map warningText, file⟩
      else none
    else none

/-- The alternatives of `/(ERESOLVE|peer dep missing|conflict|invalid|required|unmet)/gi`,
lowercased (the line under test is lowercased before matching, which models
the `i` flag for this ASCII pattern). -/
def errKeywords : List (List Char) :=
  ["eresolve", "peer dep missing", "conflict", "invalid", "required", "unmet"].map String.toList

/-- Length of the first alternative matching at the head of `cs`. -/
def firstKwLen (cs : List Char) : Option Nat :=
  errKeywords.findSome? (fun kw => if listStartsWith cs kw then some kw.length else none)

/-- Leftmost regex match in `cs`: offset of the match and its length. -/
def findMatchOffset : List Char → Option (Nat × Nat)
  | [] => none
  | c :: rest =>
    match firstKwLen (c :: rest) with
    | some len => some (0, len)
    | none =>
      match findMatchOffset rest with
      | some (p, len) => some (p + 1, len)
      | none => none

/-- `errorRegex.test(line)` for a regex built with the `g` flag: the search
starts at the regex object's `lastIndex`; on success `lastIndex` moves past
the match, on failure it resets to `0`.  Returns the test result and the
new `lastIndex`. -/
def regexTestG (line : String) (lastIndex : Nat) : Bool × Nat :=
  let cs := line.toList.map Char.toLower
  match findMatchOffset (cs.drop lastIndex) with
  | some (p, len) => (true, lastIndex + p + len)
  | none => (false, 0)

/-- `lines.filter(line => errorRegex.test(line))` with the single stateful
`errorRegex` object shared across all calls (line 212-214). -/
def filterStateful : List String → Nat → List String
  | [], _ => []
  | line :: rest, lastIndex =>
    let r := regexTestG line lastIndex
    if r.1 then line :: filterStateful rest r.2 else filterStateful rest r.2

/-- Method 2 when `JSON.parse(checkOutput)` throws (lines 210-222). -/
def dryRunTextProbe (checkOutput : String) (file : String) : Option ConflictRecord :=
  let errorLines := filterStateful (jsSplitChar '\n' checkOutput) 0
  if errorLines.length > 0 then
    some ⟨ConflictType.dependency_warning, errorLines, file⟩
  else none

/-! ## Method 4: dedupe dry-run (lines 294-319 of `dependency.js`) -/

/-- The character class of the dedupe token regex: alphanumerics, at sign,
slash, hyphen. -/
def isTokenChar (c : Char) : Bool :=
  c.isAlphanum || c == '@' || c == '/' || c == '-'

/-- `\d+\.\d+\.\d+` at the head of `cs`: the matched version characters and
the remainder. -/
def matchVersion (cs : List Char) : Option (List Char × List Char) :=
  let d1 := cs.takeWhile Char.isDigit
  let r1 := cs.dropWhile Char.isDigit
  if d1.isEmpty then none
  else
    match r1 with
    | '.' :: r2 =>
      let d2 := r2.takeWhile Char.isDigit
      let r3 := r2.dropWhile Char.isDigit
      if d2.isEmpty then none
      else
        match r3 with
        | '.' :: r4 =>
          let d3 := r4.takeWhile Char.isDigit
          let r5 := r4.dropWhile Char.isDigit
          if d3.isEmpty then none
          else some (d1 ++ '.' :: d2 ++ '.' :: d3, r5)
        | _ => none
    | _ => none

/-- Backtracking over the greedy first group (one or more token
characters): try the group
length `k`, `k-1`, ..., `1` until an `@` and a version follow.  On success
return the token `` `${m[1]}@${m[2]}` `` and the unconsumed remainder. -/
def tryGroup1 (run rest0 : List Char) : Nat → Option (String × List Char)
  | 0 => none
  | k + 1 =>
    match run.drop (k + 1) ++ rest0 with
    | '@' :: tail =>
      (match matchVersion tail with
       | some (ver, rem) =>
         some (String.mk (run.take (k + 1)) ++ "@" ++ String.mk ver, rem)
       | none => tryGroup1 run rest0 k)
    | _ => tryGroup1 run rest0 k

/-- One attempted match of the dedupe token regex (token characters, an at
sign, then a dotted three-part numeric version) at the head of `cs`. -/
def tryMatchAt (cs : List Char) : Option (String × List Char) :=
  let run := cs.takeWhile isTokenChar
  tryGroup1 run (cs.dropWhile isTokenChar) run.length

/-- `matchAll` scan: try each start position left to right, resuming after
the end of every match.  `fuel` bounds the recursion; each step consumes at
least one character, so `fuel = cs.length` never runs out. -/
def scanTokensAux : Nat → List Char → List String
  | 0, _ => []
  | _ + 1, [] => []
  | fuel + 1, c :: rest =>
    match tryMatchAt (c :: rest) with
    | some (tok, rem) => tok :: scanTokensAux fuel rem
    | none => scanTokensAux fuel rest

/-- `[...dupeOutput.matchAll(dupeRegex)].map(m => m[1] + '@' + m[2])`. -/
def extractTokens (s : String) : List String :=
  scanTokensAux s.toList.length s.toList

/-- Method 4 once `node_modules` exists and the dedupe dry-run produced
`dupeOutput` (lines 300-314).  The inner conditional on `dupes.length`
mirrors the source's `dupes.length > 0 ? dupes : [...]`, which sits inside
`if (matches.length > 0)` and therefore can never take its second branch. -/
def dedupProbe (dupeOutput : String) : Option ConflictRecord :=
  if jsIncludes dupeOutput "duplicate" || jsIncludes dupeOutput "deduped" then
    let foundTokens := extractTokens dupeOutput
    if foundTokens.length > 0 then
      some ⟨ConflictType.duplicate_packages,
        if foundTokens.length > 0 then foundTokens
        else ["Detected duplicate packages that could be deduped"],
        "node_modules"⟩
    else none
  else none

/-! ## The cascade: `detectDependencyConflicts` (lines 86-327) -/

/-- The external world of one invocation: lockfile / cache presence,
the outcome of each `execSync` call (`Except.error` models a thrown JS
exception), the `JSON.parse` oracles for externally produced text, and the
combined `readFileSync` + `JSON.parse` of each changed manifest (`none`
models a throw, caught by the per-file `catch`). -/
structure Env where
  pnpmLockExists : Bool
  yarnLockExists : Bool
  nodeModulesExists : Bool
  lsExec : Except String String
  jsonParseLs : String → Option LsNode
  dryRunExec : Except String String
  jsonParseDryRun : String → Option DryRunData
  dedupeExec : Except String String
  readManifest : String → Option PackageData

inductive PM where
  | npm
  | pnpm
  | yarn
deriving DecidableEq

/-- Lines 101-107: pnpm lockfile wins, then yarn lockfile, else npm. -/
def selectPackageManager (e : Env) : PM :=
  if e.pnpmLockExists then PM.pnpm
  else if e.yarnLockExists then PM.yarn
  else PM.npm

def lsCommand : PM → String
  | PM.pnpm => "pnpm ls --json 2>/dev/null || true"
  | PM.yarn => "yarn list --json 2>/dev/null || true"
  | PM.npm => "npm ls --json 2>/dev/null || true"

def checkCommand : PM → String
  | PM.pnpm => "pnpm install --dry-run --json 2>/dev/null || true"
  | PM.yarn => "yarn install --dry-run --json 2>/dev/null || true"
  | PM.npm => "npm install --dry-run --json 2>/dev/null || true"

def dedupeCommand : PM → String
  | PM.pnpm => "pnpm dedupe --dry-run 2>&1 || true"
  | _ => "npm dedupe --dry-run 2>&1 || true"

/-- The filter of lines 88-93. -/
def depFileFilter (changedFiles : List String) : List String :=
  changedFiles.filter (fun file =>
    jsEndsWith file "package.json" || jsEndsWith file "package-lock.json" ||
      jsEndsWith file "yarn.lock" || jsEndsWith file "pnpm-lock.yaml")

/-- The Method 3 `for` loop over the changed `package.json` files: an
unreadable or unparseable file is skipped by its `catch`, a file without
conflicts falls through to the next one. -/
def method3Loop (e : Env) : List String → Option ConflictRecord
  | [] => none
  | f :: rest =>
    match e.readManifest f with
    | none => method3Loop e rest
    | some pd =>
      match versionConflictProbe pd f with
      | some r => some r
      | none => method3Loop e rest

/-- The body of the outer `try` (lines 110-322), returning the cascade
result (or a propagating exception, possible only from the Method 1
`execSync`, which is the one throwing call not wrapped in an inner `try`)
together with the list of subprocess commands invoked, in order. -/
def detectBody (e : Env) (pm : PM) (depFiles : List String) :
    Except String (Option ConflictRecord) × List String :=
  let calls1 := [lsCommand pm]
  match e.lsExec with
  | Except.error msg => (Except.error msg, calls1)
  | Except.ok lsOutput =>
    -- inner try around JSON.parse and the two Method 1 checks
    let m1 : Option ConflictRecord :=
      match e.jsonParseLs lsOutput with
      | none => none
      | some lsData => treeProbe lsData (depFiles.headD "")
    match m1 with
    | some r => (Except.ok (some r), calls1)
    | none =>
      -- Method 2, whose execSync sits in its own try with a continue-catch
      let calls2 := calls1 ++ [checkCommand pm]
      let m2 : Option ConflictRecord :=
        match e.dryRunExec with
        | Except.error _ => none
        | Except.ok checkOutput =>
          match e.jsonParseDryRun checkOutput with
          | some checkData => dryRunJsonProbe checkData (depFiles.headD "")
          | none => dryRunTextProbe checkOutput (depFiles.headD "")
      match m2 with
      | some r => (Except.ok (some r), calls2)
      | none =>
        -- Method 3: only the changed package.json files
        match method3Loop e (depFiles.filter (fun f => jsEndsWith f "package.json")) with
        | some r => (Except.ok (some r), calls2)
        | none =>
          -- Method 4, guarded by fs.existsSync('node_modules'),
          -- with a continue-catch around its execSync
          if e.nodeModulesExists then
            let calls3 := calls2 ++ [dedupeCommand pm]
            let m4 : Option ConflictRecord :=
              match e.dedupeExec with
              | Except.error _ => none
              | Except.ok dupeOutput => dedupProbe dupeOutput
            (Except.ok m4, calls3)
          else (Except.ok none, calls2)

/-- `detectDependencyConflicts(changedFiles)`, instrumented with the list
of subprocess commands it invoked.  The outer `catch` (lines 323-326) turns
any propagated exception into `null`. -/
def detectDependencyConflicts (changedFiles : List String) (e : Env) :
    Option ConflictRecord × List String :=
  let dependencyFiles := depFileFilter changedFiles
  if dependencyFiles.length == 0 then (none, [])
  else
    let pm := selectPackageManager e
    match detectBody e pm dependencyFiles with
    | (Except.ok r, calls) => (r, calls)
    | (Except.error _, calls) => (none, calls)

/-- `detectDependencyConflicts` with its exception behaviour left visible:
the value a JS caller would observe, where `Except.error` would mean an
exception escaping to the caller. -/
def detectDependencyConflictsE (changedFiles : List String) (e : Env) :
    Except String (Option ConflictRecord) :=
  let dependencyFiles := depFileFilter changedFiles
  if dependencyFiles.length == 0 then Except.ok none
  else
    let pm := selectPackageManager e
    match (detectBody e pm dependencyFiles).1 with
    | Except.ok r => Except.ok r
    | Except.error _ => Except.ok none  -- the outer catch logs and returns null

/-! ## The advisory generator: `analyzeDependencyConflictsWithLLM`
(lines 19-79) -/

/-- The sampling of line 30-32: more than five conflicts are cut to the
first five (`slice(0, 5)`) plus one synthetic overflow line. -/
def conflictSample (conflicts : List String) : List String :=
  if conflicts.length > 5 then
    conflicts.take 5 ++
      ["...and " ++ toString (conflicts.length - 5) ++ " more similar issues"]
  else conflicts

/-- The template-literal text before the joined conflict messages
(lines 35-41). -/
def promptPrefix (conflictType : String) : String :=
  "\nYou are an expert dependency manager for JavaScript/Node.js applications.\nPlease analyze these dependency conflicts and provide specific advice on how to fix them.\n\nConflict type: " ++
    conflictType ++ "\n\nConflict messages:\n"

/-- The template-literal text after the joined conflict messages
(lines 43-50). -/
def promptSuffix : String :=
  "\n\nPlease provide:\n1. A concise explanation of what\x27s causing these conflicts (1-2 sentences)\n2. A step-by-step resolution strategy (max 3 steps)\n3. A specific code example of how to fix the most critical issue (if applicable)\n\nKeep your response very concise and practical - only provide what would be immediately useful to a developer.\n"

/-- The prompt of lines 35-50: prefix, `conflictSample.join('\n')`, suffix. -/
def buildPrompt (conflictType : String) (sample : List String) : String :=
  promptPrefix conflictType ++ jsJoin "\n" sample ++ promptSuffix

/-- JS whitespace for the `\s*` of the section-splitting regex. -/
def jsIsSpace (c : Char) : Bool :=
  c == ' ' || c == '\t' || c == '\n' || c == '\r' || c == '\x0B' || c == '\x0C'

/-- Match the separator regex (a newline, one or more digits, a dot, then
greedy whitespace) at the head of `cs`; on success return the remainder. -/
def matchNumberedSep (cs : List Char) : Option (List Char) :=
  match cs with
  | '\n' :: rest =>
    let ds := rest.takeWhile Char.isDigit
    let r1 := rest.dropWhile Char.isDigit
    if ds.isEmpty then none
    else
      match r1 with
      | '.' :: r2 => some (r2.dropWhile jsIsSpace)
      | _ => none
  | _ => none

/-- `analysis.split(separator regex)` (line 69).  `fuel` bounds the
recursion; every step consumes at least one character, so
`fuel = cs.length` never runs out. -/
def splitNumberedAux : Nat → List Char → List Char → List (List Char) → List (List Char)
  | 0, cs, cur, acc => acc ++ [cur ++ cs]
  | _ + 1, [], cur, acc => acc ++ [cur]
  | fuel + 1, c :: rest, cur, acc =>
    match matchNumberedSep (c :: rest) with
    | some rem => splitNumberedAux fuel rem [] (acc ++ [cur])
    | none => splitNumberedAux fuel rest (cur ++ [c]) acc

def splitNumbered (s : String) : List String :=
  (splitNumberedAux s.toList.length s.toList [] []).map String.mk

/-- The fetch response as the code observes it: `ok`, `status`,
`statusText`, and the result of `await response.json()` (which may throw). -/
structure HttpResponse where
  ok : Bool
  status : Nat
  statusText : String
  jsonData : Except String String

/-- The external world of one advisory call: the relevant parts of
`getProviderConfig()` (which itself never throws: it only reads environment
variables and warns on misconfiguration), the fetch of the provider
endpoint as a function of the prompt, and `config.responseHandler`. -/
structure LLMEnv where
  providerName : String
  apiKey : Option String
  fetchResult : String → Except String HttpResponse
  responseHandler : String → Except String String

/-- JS truthiness of the possibly-undefined `apiKey` string. -/
def optTruthy : Option String → Bool
  | some s => !s.isEmpty
  | none => false

/-- The `{ explanation, strategy }` object of lines 71-74. -/
structure Advisory where
  explanation : Option String
  strategy : List String
deriving DecidableEq

/-- The body of the `try` of lines 26-74: build the prompt from the
sampled conflicts, call the provider, check the response, parse and split
the analysis.  An `Except.error` is an exception travelling towards the
`catch`. -/
def llmAttempt (conflicts : List String) (conflictType : String)
    (env : LLMEnv) : Except String Advisory :=
  let prompt := buildPrompt conflictType (conflictSample conflicts)
  match env.fetchResult prompt with
  | Except.error msg => Except.error msg
  | Except.ok response =>
    if !response.ok then
      -- line 62: throw new Error(...)
      Except.error (env.providerName ++ " API error: " ++ response.statusText ++
        " (" ++ toString response.status ++ ")")
    else
      match response.jsonData with
      | Except.error msg => Except.error msg
      | Except.ok data =>
        match env.responseHandler data with
        | Except.error msg => Except.error msg
        | Except.ok analysis =>
          let sections := splitNumbered analysis
          Except.ok
            { explanation := sections.head?.map (fun s => s.trim)
              strategy := ((sections.drop 1).map (fun s => s.trim)).filter
                (fun s => !s.isEmpty) }

/-- `analyzeDependencyConflictsWithLLM(conflicts, conflictType)` with its
exception behaviour left visible (`Except.error` would be an exception
escaping to the caller). -/
def analyzeDependencyConflictsWithLLM (conflicts : List String)
    (conflictType : String) (env : LLMEnv) : Except String (Option Advisory) :=
  if !optTruthy env.apiKey then Except.ok none  -- line 22: no API key
  else
    match llmAttempt conflicts conflictType env with
    | Except.ok a => Except.ok (some a)
    | Except.error _ => Except.ok none  -- the catch of lines 75-78

/-! ## Spec-side definitions used to state claims -/

/-- A version specifier with only its leading range-operator characters
stripped — the reading asserted by claim C8. -/
def stripLeadingRangeOps (v : String) : String :=
  String.mk (v.toList.dropWhile isRangeChar)

/-- A version specifier with every occurrence of the characters caret,
tilde, greater-than, equals, less-than removed — the amended C8. -/
def removeAllRangeOps (v : String) : String :=
  String.mk (v.toList.filter (fun c => !(['^', '~', '>', '=', '<'].any (fun d => c == d))))

/-- The section lookup used to state the amended C8: the four dependency
sections of a manifest by name. -/
def sectionOf (pd : PackageData) : String → Option DepList
  | "dependencies" => pd.dependencies
  | "devDependencies" => pd.devDependencies
  | "peerDependencies" => pd.peerDependencies
  | "optionalDependencies" => pd.optionalDependencies
  | _ => none

/-- The warning-selection rule of the amended C5: the ERESOLVE code, or a
case-sensitive occurrence of "peer dep missing" or "conflict" in the text
of a string warning or in a non-empty `message` field. -/
def amendedSelects : JsWarning → Bool
  | JsWarning.str s => jsIncludes s "peer dep missing" || jsIncludes s "conflict"
  | JsWarning.obj code msg _ =>
    code == some "ERESOLVE" ||
      Option.getD (msg.map (fun m =>
        !m.isEmpty && (jsIncludes m "peer dep missing" || jsIncludes m "conflict"))) false

/-- A concrete environment for closed evaluations: no lockfiles, no
`node_modules`, every subprocess succeeds with empty output, nothing
parses. -/
def sampleEnv : Env where
  pnpmLockExists := false
  yarnLockExists := false
  nodeModulesExists := false
  lsExec := Except.ok ""
  jsonParseLs := fun _ => none
  dryRunExec := Except.ok ""
  jsonParseDryRun := fun _ => none
  dedupeExec := Except.ok ""
  readManifest := fun _ => none

/-! ## Claim theorems -/

/-- C10: a changed `package.json` that parses but has neither a
`dependencies` nor a `devDependencies` field is skipped entirely by the
version-conflict probe — whatever its `peerDependencies` and
`optionalDependencies` sections contain, no `version_conflict` is
reported for it. -/
theorem versionConflictProbe_skips_without_deps (pd : PackageData) (f : String)
    (h1 : pd.dependencies = none) (h2 : pd.devDependencies = none) :
    versionConflictProbe pd f = none := by
  simp [versionConflictProbe, h1, h2]

theorem versionConflictProbe_skips_without_deps_witness :
    versionConflictProbe
      ⟨none, none, some [("x", "^1.0.0")], some [("x", "^2.0.0")]⟩ "package.json" = none :=
  versionConflictProbe_skips_without_deps
    ⟨none, none, some [("x", "^1.0.0")], some [("x", "^2.0.0")]⟩ "package.json" rfl rfl

/-- C3: a change set with no path ending in `package.json`,
`package-lock.json`, `yarn.lock` or `pnpm-lock.yaml` makes
`detectDependencyConflicts` return `null` with an empty subprocess trace —
no probe is invoked at all. -/
theorem detect_no_manifest_no_probe (changedFiles : List String) (e : Env)
    (h : ∀ f ∈ changedFiles,
      jsEndsWith f "package.json" = false ∧ jsEndsWith f "package-lock.json" = false ∧
        jsEndsWith f "yarn.lock" = false ∧ jsEndsWith f "pnpm-lock.yaml" = false) :
    detectDependencyConflicts changedFiles e = (none, []) := by
  have hf : depFileFilter changedFiles = [] := by
    rw [depFileFilter, List.filter_eq_nil_iff]
    intro f hfmem
    obtain ⟨h1, h2, h3, h4⟩ := h f hfmem
    simp [h1, h2, h3, h4]
  simp [detectDependencyConflicts, hf]

theorem detect_no_manifest_no_probe_witness :
    detectDependencyConflicts ["src/app.js", "README.md"] sampleEnv = (none, []) :=
  detect_no_manifest_no_probe ["src/app.js", "README.md"] sampleEnv (by decide)

/-- C4: whatever the environment does — subprocesses that throw, output
that does not parse, a fetch that rejects, a non-OK response, a handler
that throws — neither `detectDependencyConflicts` nor
`analyzeDependencyConflictsWithLLM` lets an exception escape: both always
return a value (`Except.ok`), never a propagated error. -/
theorem no_exception_escapes (changedFiles : List String) (e : Env)
    (conflicts : List String) (conflictType : String) (le : LLMEnv) :
    (∃ r, detectDependencyConflictsE changedFiles e = Except.ok r) ∧
    (∃ a, analyzeDependencyConflictsWithLLM conflicts conflictType le = Except.ok a) := by
  constructor
  · dsimp only [detectDependencyConflictsE]
    by_cases hb : ((depFileFilter changedFiles).length == 0) = true
    · rw [if_pos hb]; exact ⟨none, rfl⟩
    · rw [if_neg hb]
      cases hr : (detectBody e (selectPackageManager e) (depFileFilter changedFiles)).1 with
      | ok r => exact ⟨r, rfl⟩
      | error msg => exact ⟨none, rfl⟩
  · dsimp only [analyzeDependencyConflictsWithLLM]
    by_cases hk : (!optTruthy le.apiKey) = true
    · rw [if_pos hk]; exact ⟨none, rfl⟩
    · rw [if_neg hk]
      cases ha : llmAttempt conflicts conflictType le with
      | ok a => exact ⟨some a, rfl⟩
      | error msg => exact ⟨none, rfl⟩

/-- C9: with more than five conflicts the sample sent to the model is the
first five problem strings verbatim plus the single synthetic line
"...and N more similar issues" with N the true overflow count, and the
prompt embeds exactly that sample; with at most five conflicts the sample
is the conflict list itself, with no synthetic line. -/
theorem conflictSample_prompt_spec (conflicts : List String) (conflictType : String) :
    (conflicts.length > 5 →
      conflictSample conflicts =
        conflicts.take 5 ++
          ["...and " ++ toString (conflicts.length - 5) ++ " more similar issues"] ∧
      buildPrompt conflictType (conflictSample conflicts) =
        promptPrefix conflictType ++
          jsJoin "\n" (conflicts.take 5 ++
            ["...and " ++ toString (conflicts.length - 5) ++ " more similar issues"]) ++
          promptSuffix) ∧
    (conflicts.length ≤ 5 →
      conflictSample conflicts = conflicts ∧
      buildPrompt conflictType (conflictSample conflicts) =
        promptPrefix conflictType ++ jsJoin "\n" conflicts ++ promptSuffix) := by
  constructor
  · intro h
    have hs : conflictSample conflicts =
        conflicts.take 5 ++
          ["...and " ++ toString (conflicts.length - 5) ++ " more similar issues"] := by
      rw [conflictSample, if_pos h]
    exact ⟨hs, by rw [buildPrompt, hs]⟩
  · intro h
    have hs : conflictSample conflicts = conflicts := by
      rw [conflictSample, if_neg (by omega)]
    exact ⟨hs, by rw [buildPrompt, hs]⟩

theorem conflictSample_prompt_spec_witness :
    conflictSample ["a", "b", "c", "d", "e", "f", "g"] =
      ["a", "b", "c", "d", "e", "...and 2 more similar issues"] :=
  (((conflictSample_prompt_spec ["a", "b", "c", "d", "e", "f", "g"] "x").1
    (by decide)).1).trans (by decide)

/-- C6 (code bug): both lines of the dry-run text output match the error
pattern when tested from a fresh regex, yet the probe — which reuses one
global-flagged regex object across the filter, carrying its `lastIndex`
over from the previous line — returns only the first line and silently
drops the second. -/
theorem dryRunTextProbe_drops_matching_line :
    (regexTestG "conflict a" 0).1 = true ∧
    (regexTestG "conflict b" 0).1 = true ∧
    dryRunTextProbe "conflict a\nconflict b" "package.json" =
      some ⟨ConflictType.dependency_warning, ["conflict a"], "package.json"⟩ := by
  decide

/-- C7 (code bug): the output "deduped" fires the substring trigger but
yields no extractable `name@semver` token, and the probe then returns
nothing at all — the literal fallback problem list in the source sits
inside `if (matches.length > 0)` and is unreachable.  When a token is
extractable the probe does return it. -/
theorem dedupProbe_fallback_unreachable :
    jsIncludes "deduped" "deduped" = true ∧
    extractTokens "deduped" = [] ∧
    dedupProbe "deduped" = none ∧
    dedupProbe "deduped react@1.2.3" =
      some ⟨ConflictType.duplicate_packages, ["react@1.2.3"], "node_modules"⟩ := by
  decide

/-- C5 counterexample: a warning object whose message contains "conflict"
case-insensitively (but not case-sensitively) is not selected — the probe
returns no record, refuting the claimed case-insensitive matching. -/
theorem dryRunJsonProbe_not_case_insensitive :
    jsIncludesCI "CONFLICT: versions differ" "conflict" = true ∧
    dryRunJsonProbe
      ⟨some [JsWarning.obj none (some "CONFLICT: versions differ") "w"]⟩
      "package.json" = none := by
  decide

theorem warningMatches_eq_amendedSelects (w : JsWarning) :
    warningMatches w = amendedSelects w := by
  cases w with
  | str s => rfl
  | obj code msg stringified => cases msg <;> rfl

/-- C5 (amended): the dry-run probe selects exactly the warnings that
carry the ERESOLVE code, or whose text (for string warnings) or non-empty
`.message` field contains "peer dep missing" or "conflict" matched
CASE-SENSITIVELY; when at least one warning is selected it returns kind
`peer_dependency_conflict` with the selected warnings' texts (the
`.message` field when present and non-empty, the stringified form
otherwise), and no record when none is selected. -/
theorem dryRunJsonProbe_amended (ws : List JsWarning) (f : String) :
    (ws.filter amendedSelects ≠ [] →
      dryRunJsonProbe ⟨some ws⟩ f =
        some ⟨ConflictType.peer_dependency_conflict,
          (ws.filter amendedSelects).map warningText, f⟩) ∧
    (ws.filter amendedSelects = [] → dryRunJsonProbe ⟨some ws⟩ f = none) := by
  have hfe : ws.filter warningMatches = ws.filter amendedSelects :=
    List.filter_congr (fun w _ => warningMatches_eq_amendedSelects w)
  constructor
  · intro h
    have hws : ws ≠ [] := by
      intro hnil
      rw [hnil] at h
      exact h rfl
    simp only [dryRunJsonProbe, hfe]
    rw [if_pos (List.length_pos.mpr hws), if_pos (List.length_pos.mpr h)]
  · intro h
    simp only [dryRunJsonProbe, hfe]
    by_cases hws : ws.length > 0
    · rw [if_pos hws, h]
      simp
    · rw [if_neg hws]

theorem dryRunJsonProbe_amended_witness :
    dryRunJsonProbe ⟨some [JsWarning.str "peer dep missing: react"]⟩ "package.json" =
      some ⟨ConflictType.peer_dependency_conflict, ["peer dep missing: react"],
        "package.json"⟩ :=
  ((dryRunJsonProbe_amended [JsWarning.str "peer dep missing: react"]
    "package.json").1 (by decide)).trans (by decide)

/-- C8 counterexample: for the specifier ">=1.0.0 <2.0.0" the version map
records "1.0.0 2.0.0" (every range character removed), which differs from
the claimed leading-only stripping "1.0.0 <2.0.0". -/
theorem cleanVersion_not_leading_only :
    buildVersionMap ⟨some [("semver", ">=1.0.0 <2.0.0")], none, none, none⟩ =
      [("semver", [("dependencies", "1.0.0 2.0.0")])] ∧
    stripLeadingRangeOps ">=1.0.0 <2.0.0" = "1.0.0 <2.0.0" ∧
    ("1.0.0 2.0.0" : String) ≠ "1.0.0 <2.0.0" := by
  decide

theorem isRangeChar_eq_any (c : Char) :
    isRangeChar c = (['^', '~', '>', '=', '<'].any (fun d => c == d)) := by
  simp [isRangeChar, List.any, Bool.or_assoc]

theorem cleanVersion_eq_removeAll (v : String) :
    cleanVersion v = removeAllRangeOps v := by
  unfold cleanVersion removeAllRangeOps
  congr 1
  exact List.filter_congr (fun c _ => by rw [isRangeChar_eq_any])

theorem vmapFind_mem {m : VMap} {pkg : String} {es : VersionEntries}
    (h : vmapFind m pkg = some es) : (pkg, es) ∈ m := by
  induction m with
  | nil => simp [vmapFind] at h
  | cons hd tl ih =>
    obtain ⟨k, v⟩ := hd
    rw [vmapFind] at h
    by_cases hk : (k == pkg) = true
    · rw [if_pos hk] at h
      have hkq : k = pkg := beq_iff_eq.mp hk
      have hv : v = es := by injection h
      subst hkq
      subst hv
      exact List.mem_cons_self _ _
    · rw [if_neg hk] at h
      exact List.mem_cons_of_mem _ (ih h)

theorem vmapSet_mem {m : VMap} {pkg : String} {v : VersionEntries}
    {q : String} {es : VersionEntries} (h : (q, es) ∈ vmapSet m pkg v) :
    (q, es) ∈ m ∨ (q = pkg ∧ es = v) := by
  induction m with
  | nil =>
    simp only [vmapSet, List.mem_singleton] at h
    right
    exact ⟨congrArg Prod.fst h, congrArg Prod.snd h⟩
  | cons hd tl ih =>
    obtain ⟨k, w⟩ := hd
    rw [vmapSet] at h
    by_cases hk : (k == pkg) = true
    · rw [if_pos hk] at h
      rcases List.mem_cons.mp h with h1 | h2
      · right
        have hq : q = k := congrArg Prod.fst h1
        exact ⟨hq.trans (beq_iff_eq.mp hk), congrArg Prod.snd h1⟩
      · exact Or.inl (List.mem_cons_of_mem _ h2)
    · rw [if_neg hk] at h
      rcases List.mem_cons.mp h with h1 | h2
      · exact Or.inl (h1 ▸ List.mem_cons_self _ _)
      · rcases ih h2 with hm | hnew
        · exact Or.inl (List.mem_cons_of_mem _ hm)
        · exact Or.inr hnew

theorem addEntry_mem {m : VMap} {ty pkg version : String}
    {q : String} {es : VersionEntries} (h : (q, es) ∈ addEntry m ty pkg version) :
    ∀ e ∈ es, (∃ es0, (q, es0) ∈ m ∧ e ∈ es0) ∨
      (q = pkg ∧ e = (ty, cleanVersion version)) := by
  intro e he
  rw [addEntry] at h
  cases hfind : vmapFind m pkg with
  | none =>
    rw [hfind] at h
    rcases vmapSet_mem h with hm | ⟨hq, hes⟩
    · exact Or.inl ⟨es, hm, he⟩
    · subst hes
      rcases List.mem_singleton.mp he with rfl
      exact Or.inr ⟨hq, rfl⟩
  | some existingVersions =>
    rw [hfind] at h
    simp only [] at h
    by_cases hc : (existingVersions.any (fun v => v.2 != cleanVersion version)) = true
    · rw [if_pos hc] at h
      rcases vmapSet_mem h with hm | ⟨hq, hes⟩
      · exact Or.inl ⟨es, hm, he⟩
      · subst hes
        rcases List.mem_append.mp he with hex | hnew
        · subst hq
          exact Or.inl ⟨existingVersions, vmapFind_mem hfind, hex⟩
        · rcases List.mem_singleton.mp hnew with rfl
          exact Or.inr ⟨hq, rfl⟩
    · rw [if_neg hc] at h
      exact Or.inl ⟨es, h, he⟩

theorem addToVersionMap_mem (ds : DepList) :
    ∀ (m : VMap) (ty q : String) (es : VersionEntries),
      (q, es) ∈ addToVersionMap m (some ds) ty → ∀ e ∈ es,
        (∃ es0, (q, es0) ∈ m ∧ e ∈ es0) ∨
        (∃ spec, (q, spec) ∈ ds ∧ e = (ty, cleanVersion spec)) := by
  induction ds with
  | nil =>
    intro m ty q es h e he
    exact Or.inl ⟨es, by simpa [addToVersionMap] using h, he⟩
  | cons d rest ih =>
    intro m ty q es h e he
    have h' : (q, es) ∈ addToVersionMap (addEntry m ty d.1 d.2) (some rest) ty := by
      simpa [addToVersionMap] using h
    rcases ih (addEntry m ty d.1 d.2) ty q es h' e he with ⟨es0, hm, he0⟩ | ⟨spec, hs, he0⟩
    · rcases addEntry_mem hm e he0 with hL | ⟨hq, heq⟩
      · exact Or.inl hL
      · refine Or.inr ⟨d.2, ?hmem, heq⟩
        rw [hq]
        exact (Prod.mk.eta (p := d)) ▸ List.mem_cons_self d rest
    · exact Or.inr ⟨spec, List.mem_cons_of_mem d hs, he0⟩

theorem addToVersionMapO_mem {o : Option DepList} {m : VMap} {ty q : String}
    {es : VersionEntries} (h : (q, es) ∈ addToVersionMap m o ty) :
    ∀ e ∈ es, (∃ es0, (q, es0) ∈ m ∧ e ∈ es0) ∨
      (∃ ds spec, o = some ds ∧ (q, spec) ∈ ds ∧ e = (ty, cleanVersion spec)) := by
  intro e he
  cases o with
  | none => exact Or.inl ⟨es, by simpa [addToVersionMap] using h, he⟩
  | some ds =>
    rcases addToVersionMap_mem ds m ty q es h e he with hL | ⟨spec, hs, heq⟩
    · exact Or.inl hL
    · exact Or.inr ⟨ds, spec, rfl, hs, heq⟩

/-- C8 (amended): every version recorded into the version map is the raw
specifier of some entry of the corresponding manifest section with EVERY
occurrence of the range-operator characters caret, tilde, greater-than,
equals, less-than removed (not only the leading ones, as claimed). -/
theorem buildVersionMap_entries (pd : PackageData) (q : String) (es : VersionEntries)
    (h : (q, es) ∈ buildVersionMap pd) :
    ∀ e ∈ es, ∃ ty ds spec, sectionOf pd ty = some ds ∧ (q, spec) ∈ ds ∧
      e = (ty, removeAllRangeOps spec) := by
  intro e he
  rw [buildVersionMap] at h
  rcases addToVersionMapO_mem h e he with ⟨es3, h3, he3⟩ | ⟨ds, spec, ho, hs, heq⟩
  · rcases addToVersionMapO_mem h3 e he3 with ⟨es2, h2, he2⟩ | ⟨ds, spec, ho, hs, heq⟩
    · rcases addToVersionMapO_mem h2 e he2 with ⟨es1, h1, he1⟩ | ⟨ds, spec, ho, hs, heq⟩
      · rcases addToVersionMapO_mem h1 e he1 with ⟨es0, h0, _⟩ | ⟨ds, spec, ho, hs, heq⟩
        · cases h0
        · exact ⟨"dependencies", ds, spec, ho, hs, by
            rw [heq, cleanVersion_eq_removeAll]⟩
      · exact ⟨"devDependencies", ds, spec, ho, hs, by
          rw [heq, cleanVersion_eq_removeAll]⟩
    · exact ⟨"peerDependencies", ds, spec, ho, hs, by
        rw [heq, cleanVersion_eq_removeAll]⟩
  · exact ⟨"optionalDependencies", ds, spec, ho, hs, by
      rw [heq, cleanVersion_eq_removeAll]⟩

theorem buildVersionMap_entries_witness :
    ∃ ty ds spec,
      sectionOf ⟨some [("semver", ">=1.0.0 <2.0.0")], none, none, none⟩ ty = some ds ∧
      ("semver", spec) ∈ ds ∧
      (("dependencies", "1.0.0 2.0.0") : String × String) = (ty, removeAllRangeOps spec) :=
  buildVersionMap_entries ⟨some [("semver", ">=1.0.0 <2.0.0")], none, none, none⟩
    "semver" [("dependencies", "1.0.0 2.0.0")] (by decide)
    ("dependencies", "1.0.0 2.0.0") (by decide)

theorem mem_findInvalidDepsList {x : String} {deps : List (String × LsNode)}
    {nm : String} {c : LsNode} (hmem : (nm, c) ∈ deps)
    (hx : x ∈ findInvalidDeps c) : x ∈ findInvalidDepsList deps := by
  induction deps with
  | nil => cases hmem
  | cons d rest ih =>
    obtain ⟨dn, dc⟩ := d
    rw [findInvalidDepsList]
    rcases List.mem_cons.mp hmem with he | hm
    · have hc : dc = c := congrArg Prod.snd he.symm
      exact List.mem_append.mpr (Or.inl (hc ▸ hx))
    · exact List.mem_append.mpr (Or.inr (ih hm))

theorem invalid_token_mem {n t : LsNode} (h : InTree n t) (hinv : n.invalid = true) :
    (n.name ++ "@" ++ n.version) ∈ findInvalidDeps t := by
  induction h with
  | refl =>
    cases n with
    | mk i nm v p d =>
      rw [LsNode.invalid] at hinv
      subst hinv
      rw [findInvalidDeps, LsNode.name, LsNode.version, if_pos rfl]
      exact List.mem_append.mpr (Or.inl (List.mem_append.mpr (Or.inl
        (List.mem_singleton.mpr rfl))))
  | @child c nm t hmem hsub ih =>
    cases t with
    | mk i tnm v p d =>
      rw [LsNode.dependencies] at hmem
      rw [findInvalidDeps]
      exact List.mem_append.mpr (Or.inr (mem_findInvalidDepsList hmem ih))

/-- C2: when the parsed list output carries a non-empty top-level
`problems` array the probe returns kind `npm_dependency_conflict` with
exactly those entries (the tree walk is not consulted); otherwise, for any
node marked invalid at any depth of the `dependencies` tree, the probe
returns kind `invalid_dependencies` and its problems contain that node's
`name@version` token. -/
theorem treeProbe_spec :
    (∀ (root : LsNode) (f : String), root.problems ≠ [] →
      treeProbe root f = some ⟨ConflictType.npm_dependency_conflict, root.problems, f⟩) ∧
    (∀ (root n : LsNode) (f : String), root.problems = [] → InTree n root →
      n.invalid = true →
      treeProbe root f = some ⟨ConflictType.invalid_dependencies, findInvalidDeps root, f⟩ ∧
      (n.name ++ "@" ++ n.version) ∈ findInvalidDeps root) := by
  constructor
  · intro root f h
    rw [treeProbe, if_pos (List.length_pos.mpr h)]
  · intro root n f hp hin hinv
    have htok := invalid_token_mem hin hinv
    have hne : findInvalidDeps root ≠ [] := List.ne_nil_of_mem htok
    refine ⟨?heq, htok⟩
    rw [treeProbe, if_neg (by simp [hp]), if_pos (List.length_pos.mpr hne)]

theorem treeProbe_spec_witness :
    treeProbe
      (LsNode.mk false "root" "0.0.1" []
        [("mid", LsNode.mk false "mid" "2.0.0" []
          [("left-pad", LsNode.mk true "left-pad" "1.0.0" [] [])])]) "package.json" =
      some ⟨ConflictType.invalid_dependencies,
        findInvalidDeps
          (LsNode.mk false "root" "0.0.1" []
            [("mid", LsNode.mk false "mid" "2.0.0" []
              [("left-pad", LsNode.mk true "left-pad" "1.0.0" [] [])])]),
        "package.json"⟩ ∧
    ("left-pad@1.0.0" : String) ∈ findInvalidDeps
      (LsNode.mk false "root" "0.0.1" []
        [("mid", LsNode.mk false "mid" "2.0.0" []
          [("left-pad", LsNode.mk true "left-pad" "1.0.0" [] [])])]) :=
  treeProbe_spec.2
    (LsNode.mk false "root" "0.0.1" []
      [("mid", LsNode.mk false "mid" "2.0.0" []
        [("left-pad", LsNode.mk true "left-pad" "1.0.0" [] [])])])
    (LsNode.mk true "left-pad" "1.0.0" [] []) "package.json" rfl
    (InTree.child _ (List.Mem.head _)
      (InTree.child _ (List.Mem.head _) InTree.refl))
    rfl

/-- C1: a manifest assigning a package two specifiers with different
normalized versions in `dependencies` and `devDependencies` yields a
`version_conflict` record whose problem string names both sections and
both normalized versions; the left-pad example yields exactly the expected
string; and a package whose normalized versions agree across all four
sections contributes no conflict entry. -/
theorem versionConflictProbe_version_conflict
    (pkg v1 v2 vA vB vC f : String)
    (hne : cleanVersion v1 ≠ cleanVersion v2)
    (hA : cleanVersion vA = cleanVersion v1)
    (hB : cleanVersion vB = cleanVersion v1)
    (hC : cleanVersion vC = cleanVersion v1) :
    versionConflictProbe ⟨some [(pkg, v1)], some [(pkg, v2)], none, none⟩ f =
      some ⟨ConflictType.version_conflict,
        [pkg ++ " has multiple versions: " ++ "dependencies: " ++ cleanVersion v1 ++
          ", " ++ "devDependencies: " ++ cleanVersion v2], f⟩ ∧
    versionConflicts
      ⟨some [(pkg, v1)], some [(pkg, vA)], some [(pkg, vB)], some [(pkg, vC)]⟩ = [] ∧
    versionConflictProbe
      ⟨some [("left-pad", "^1.0.0")], some [("left-pad", "^2.0.0")], none, none⟩
      "package.json" =
      some ⟨ConflictType.version_conflict,
        ["left-pad has multiple versions: dependencies: 1.0.0, devDependencies: 2.0.0"],
        "package.json"⟩ := by
  refine ⟨?ha, ?hb, by decide⟩
  · have hb1 : buildVersionMap ⟨some [(pkg, v1)], some [(pkg, v2)], none, none⟩ =
        [(pkg, [("dependencies", cleanVersion v1), ("devDependencies", cleanVersion v2)])] := by
      simp [buildVersionMap, addToVersionMap, addEntry, vmapFind, vmapSet, hne]
    simp [versionConflictProbe, versionConflicts, hb1, jsJoin, String.append_assoc]
    have e1 : (" has multiple versions: dependencies: " : String) =
        " has multiple versions: " ++ ("dependencies" ++ ": ") := rfl
    have e2 : (", devDependencies: " : String) = ", " ++ ("devDependencies" ++ ": ") := rfl
    rw [e1, e2]
    simp only [String.append_assoc]
  · have hbm : buildVersionMap
        ⟨some [(pkg, v1)], some [(pkg, vA)], some [(pkg, vB)], some [(pkg, vC)]⟩ =
        [(pkg, [("dependencies", cleanVersion v1)])] := by
      simp [buildVersionMap, addToVersionMap, addEntry, vmapFind, vmapSet, hA, hB, hC]
    simp [versionConflicts, hbm]

theorem versionConflictProbe_version_conflict_witness :
    versionConflictProbe
      ⟨some [("left-pad", "^1.0.0")], some [("left-pad", "^2.0.0")], none, none⟩
      "apps/web/package.json" =
      some ⟨ConflictType.version_conflict,
        ["left-pad has multiple versions: dependencies: 1.0.0, devDependencies: 2.0.0"],
        "apps/web/package.json"⟩ :=
  ((versionConflictProbe_version_conflict "left-pad" "^1.0.0" "^2.0.0"
    "~1.0.0" "=1.0.0" "1.0.0" "apps/web/package.json"
    (by decide) (by decide) (by decide) (by decide)).1).trans (by decide)

end PushScript
